import Mathlib

/-!
Shallow embedding of the PEDL orchestration pipeline (`pedl/cli.py` and
`pedl/bert_for_distant_supervision.py`): candidate-pair generation, the
streaming sentence deduplication, batched scoring, the rank/threshold
extraction algorithm, and the sharded training-set crawl.  Floating-point
scores are modelled as rationals; file contents are modelled as the list of
writes performed on them, and where the code inspects the on-disk size of a
still-open buffered stream, whether the buffered bytes had already reached
the disk is made an explicit parameter of the model.
-/

namespace Pedl

/-- A sentence as used by `predict`: raw text, entity-blinded text, pmid. -/
structure Sentence where
  text : String
  text_blinded : String
  pmid : String
deriving DecidableEq

/-- One extraction output record (`label\tscore\tpmid\ttext\tPEDL` line of
`predict`).  The label is kept as the column index `j` into the fixed
7-label vocabulary (`PEDLDataset.id_to_label` is outside the embedded core). -/
structure ExtractionRecord where
  label : Nat
  score : ℚ
  pmid : String
  text : String
deriving DecidableEq

/-- Fuel-driven worker for `chunks`; the fuel is the length of the list, which
is always sufficient for a positive chunk size. -/
def chunksGo {α : Type} (n : Nat) : Nat → List α → List (List α)
  | _, [] => []
  | 0, _ => []
  | fuel + 1, l => l.take n :: chunksGo n fuel (l.drop n)

/-- Modelled from the spec: `pedl.utils.chunks` is not under `src/`; §9 of the
spec describes it as a pure function mapping (sequence, chunk size) to the
finite sequence of consecutive fixed-size sub-sequences of the input, the
last possibly shorter. -/
def chunks {α : Type} (l : List α) (n : Nat) : List (List α) :=
  if n = 0 then [] else chunksGo n l.length l

/-- Candidate pair generation of `predict` (cli.py lines 69-74): the cartesian
product in list order, each forward pair immediately followed by its reverse
pair unless `skip_reverse`. -/
def pairs_to_query (p1s p2s : List String) (skip_reverse : Bool) :
    List (String × String) :=
  p1s.flatMap (fun p1 => p2s.flatMap (fun p2 =>
    (p1, p2) :: if skip_reverse then [] else [(p2, p1)]))

/-- `torch.sort(probs.view(-1), descending=True)[0]`: the flattened score
multiset sorted in descending order. -/
def sortDesc (l : List ℚ) : List ℚ :=
  l.insertionSort (fun a b => b ≤ a)

/-- The score stored at row `i`, column `j` of the score matrix. -/
def valueAt (m : List (List ℚ)) (i j : Nat) : Option ℚ :=
  m[i]?.bind (fun row => row[j]?)

/-- `torch.where(probs == max_score)`: all cells of the matrix whose score is
exactly `v`, in row-major order. -/
def matchCells (m : List (List ℚ)) (v : ℚ) : List (Nat × Nat) :=
  m.enum.flatMap (fun ir =>
    (ir.2.enum.filter (fun jv => jv.2 = v)).map (fun jv => (ir.1, jv.1)))

/-- The extraction ranker walk (cli.py lines 178-184): walk the sorted score
values in descending order, skip values below the cutoff, and for each
remaining value emit every cell whose score equals it, tagged with that
value.  No emitted cell is ever removed from consideration. -/
def rankerCells (m : List (List ℚ)) (cutoff : ℚ) : List (ℚ × Nat × Nat) :=
  (sortDesc m.flatten).flatMap (fun v =>
    if v < cutoff then [] else (matchCells m v).map (fun ij => (v, ij.1, ij.2)))

/-- The records written by the ranker walk: for each emitted cell `(i, j)` at
walk value `v`, the record built from label index `j`, score `v` and the
`i`-th scored sentence. -/
def rankerRecords (sents : List Sentence) (m : List (List ℚ)) (cutoff : ℚ) :
    List ExtractionRecord :=
  (rankerCells m cutoff).filterMap (fun vij =>
    sents[vij.2.1]?.map (fun s => ⟨vij.2.2, vij.1, s.pmid, s.text⟩))

/-- Per-batch sentence ordering of `predict` (cli.py line 147): sort by raw
text length. -/
def sortByLen (l : List Sentence) : List Sentence :=
  l.insertionSort (fun a b => a.text.length ≤ b.text.length)

/-- One step of the streaming deduplication (cli.py lines 147-149): sort the
incoming chunk by text length and keep the sentences whose raw text was not
recorded before. -/
def keptOfBatch (processed : List String) (batch : List Sentence) :
    List Sentence :=
  (sortByLen batch).filter (fun s => s.text ∉ processed)

/-- The deduplication loop over the evidence chunks, threading the set of
already-processed raw texts. -/
def dedupAux : List String → List (List Sentence) → List (List Sentence)
  | _, [] => []
  | processed, b :: bs =>
    let kept := keptOfBatch processed b
    kept :: dedupAux (processed ++ kept.map (fun s => s.text)) bs

/-- The per-chunk lists of sentences kept for scoring. -/
def keptBatches (batches : List (List Sentence)) : List (List Sentence) :=
  dedupAux [] batches

/-- `all_sentences` after the evidence loop of `predict`: the concatenation of
all kept chunks. -/
def allSentences (batches : List (List Sentence)) : List Sentence :=
  (keptBatches batches).flatten

/-- The concatenated score matrix (`torch.cat(probs)`): every kept chunk is
split into scoring batches of `batchSize` via `chunks` and the per-batch row
blocks are concatenated in order. -/
def probRows (batches : List (List Sentence))
    (score : List Sentence → List (List ℚ)) (batchSize : Nat) :
    List (List ℚ) :=
  (keptBatches batches).flatMap (fun kb => (chunks kb batchSize).flatMap score)

/-- One step of the database-result deduplication (cli.py lines 131-140): a
formatted statement line is written only if not seen before; it is always
added to the seen set. -/
def dbStep (acc : List String × List String) (r : String) :
    List String × List String :=
  if r ∈ acc.2 then (acc.1, acc.2 ++ [r]) else (acc.1 ++ [r], acc.2 ++ [r])

/-- The database lines actually written for one pair, in order. -/
def dbWritten (dbResults : List String) : List String :=
  (dbResults.foldl dbStep ([], [])).1

/-- Processing of one pair by `predict` (cli.py lines 128-188), with the
database statements and the evidence chunks as inputs and the scoring model
as an oracle.  The `os.path.getsize(path_out) == 0` checks at lines 166 and
174 run inside the `with open(path_out, "w")` block, while the database
writes may still sit in the stream's userspace buffer; `dbFlushed` says
whether any database bytes had reached the disk when those checks ran.  It
is `false` whenever the buffered database output is smaller than the stream
buffer, and `true` e.g. for a single write at least as large as the stream
buffer, which CPython writes through to disk.  A file removed while bytes
are still buffered has them flushed to the unlinked inode on close and they
never reappear on disk; a file that survives to the close holds every
written line.  The final check at line 187 runs on the closed file and sees
everything.  The result is the final on-disk artifact: `none` when the file
was removed, otherwise the written lines (database lines on the left,
ranker records on the right). -/
def processPair (dbResults : List String) (batches : List (List Sentence))
    (score : List Sentence → List (List ℚ)) (batchSize : Nat) (cutoff : ℚ)
    (dbFlushed : Bool) :
    Option (List (String ⊕ ExtractionRecord)) :=
  let dbLines : List (String ⊕ ExtractionRecord) :=
    (dbWritten dbResults).map Sum.inl
  let dbVisible : Bool := dbFlushed && !dbLines.isEmpty
  let sents := allSentences batches
  let probs := probRows batches score batchSize
  if sents = [] then
    if dbVisible = false then none else some dbLines
  else if probs.flatten.all (fun x => x < cutoff) then
    if dbVisible = false then none else some dbLines
  else
    let content := dbLines ++ (rankerRecords sents probs cutoff).map Sum.inr
    if content = [] then none else some content

/-- The error raised by the safety cap of `predict` (cli.py lines 75-77),
paired below with the process exit code. -/
inductive PedlError where
  | oversizedRemoteQuery (nPairs : Nat)
deriving DecidableEq

/-- The `predict` pipeline: generate the pair work list, apply the safety cap
when no local PubTator copy is configured, then process every pair
(self-pairs are skipped and leave no artifact).  Evidence retrieval and
scoring are oracles; an oversized remote query aborts with exit code 1
before either oracle is consulted. -/
def predictRun (p1s p2s : List String) (skip_reverse hasPubtator : Bool)
    (pairData : String × String → List String × List (List Sentence))
    (score : List Sentence → List (List ℚ)) (batchSize : Nat) (cutoff : ℚ)
    (dbFlushed : Bool) :
    Except (PedlError × Nat)
      (List (String × String × Option (List (String ⊕ ExtractionRecord)))) :=
  let pairs := pairs_to_query p1s p2s skip_reverse
  if 100 < pairs.length ∧ hasPubtator = false then
    .error (.oversizedRemoteQuery pairs.length, 1)
  else
    .ok (pairs.map (fun pq =>
      (pq.1, pq.2,
        if pq.1 = pq.2 then none
        else processPair (pairData pq).1 (pairData pq).2 score batchSize
          cutoff dbFlushed)))

/-- `BertForDistantSupervision.forward_batched` restricted to the row blocks:
a falsy batch size means a single batch, otherwise the input is chunked and
the per-batch outputs are concatenated in order. -/
def forward_batched {α β : Type} (f : List α → List β) (batch_size : Nat)
    (xs : List α) : List β :=
  if batch_size = 0 then f xs else ((chunks xs batch_size).map f).flatten

/-- An entity of `build_training_set`: PubTator type and canonical id. -/
structure Entity where
  type : String
  cuid : String
deriving DecidableEq

/-- A training sentence: raw text, blinded text, pmid. -/
structure TSent where
  text : String
  text_blinded : String
  pmid : String
deriving DecidableEq

/-- The data consumed for one pair at one assigned pmid in the crawl loop:
the pair, the relation set in its iteration order (the argument order of
`",".join(relations)`), and the extracted sentences. -/
structure PairWork where
  head : Entity
  tail : Entity
  rels : List String
  sents : List TSent
deriving DecidableEq

/-- The data consumed for one pmid of the sorted global list: whether a
document was fetched, and the pair set in its iteration order. -/
structure PmidWork where
  hasDoc : Bool
  pairs : List PairWork
deriving DecidableEq

/-- The relation-set separator of `",".join(relations)`. -/
def relSep : String := ","

/-- The field separator of the shard line format. -/
def fieldSep : String := "\t"

/-- The line terminator of the shard line format. -/
def lineEnd : String := "\n"

/-- The default value used when positionally indexing the sorted pmid list in
statements; never reached at in-range positions. -/
def noPmid : String := ""

/-- One line of the raw-text shard (cli.py line 250). -/
def rawLine (pw : PairWork) (s : TSent) : List String :=
  [pw.head.type, pw.head.cuid, pw.tail.type, pw.tail.cuid,
   String.intercalate relSep pw.rels, s.text, s.pmid]

/-- One line of the blinded-text shard (cli.py line 251). -/
def blindedLine (pw : PairWork) (s : TSent) : List String :=
  [pw.head.type, pw.head.cuid, pw.tail.type, pw.tail.cuid,
   String.intercalate relSep pw.rels, s.text_blinded, s.pmid]

/-- The worker filter of the crawl loop (cli.py lines 237-239): keep the
entries of the sorted global list at positions `p` with
`p % n_worker == worker_id`. -/
def crawl_work (works : List PmidWork) (n_worker worker_id : Nat) :
    List PmidWork :=
  ((works.enum).filter (fun p => p.1 % n_worker == worker_id)).map
    (fun p => p.2)

/-- The lines written to the raw-text shard by the crawl loop. -/
def crawlRawLines (works : List PmidWork) : List (List String) :=
  works.flatMap (fun w =>
    if w.hasDoc then w.pairs.flatMap (fun pw => pw.sents.map (rawLine pw))
    else [])

/-- The lines written to the blinded-text shard by the crawl loop. -/
def crawlBlindedLines (works : List PmidWork) : List (List String) :=
  works.flatMap (fun w =>
    if w.hasDoc then w.pairs.flatMap (fun pw => pw.sents.map (blindedLine pw))
    else [])

/-- The sequence of write events of the crawl loop: each event appends one
line to the raw shard and one to the blinded shard. -/
def writeEvents (works : List PmidWork) : List (PairWork × TSent) :=
  works.flatMap (fun w =>
    if w.hasDoc then w.pairs.flatMap (fun pw => pw.sents.map (fun s => (pw, s)))
    else [])

/-- Shard file bytes: tab-joined fields, newline-terminated lines. -/
def shardBytes (lines : List (List String)) : String :=
  String.join (lines.map (fun fs => String.intercalate fieldSep fs ++ lineEnd))

/-- The bytes of the raw-text shard written by worker `worker_id` of
`n_worker`. -/
def crawl_raw_shard (works : List PmidWork) (n_worker worker_id : Nat) :
    String :=
  shardBytes (crawlRawLines (crawl_work works n_worker worker_id))

/-- The bytes of the blinded-text shard written by worker `worker_id` of
`n_worker`. -/
def crawl_blinded_shard (works : List PmidWork) (n_worker worker_id : Nat) :
    String :=
  shardBytes (crawlBlindedLines (crawl_work works n_worker worker_id))

/-- `sorted(pmid_to_pairs)` (cli.py line 237): the deterministically sorted
global pmid list. -/
def sortPmids (l : List String) : List String :=
  l.insertionSort (fun a b => a ≤ b)

/-- The pmids processed by worker `worker_id` of `n_worker`: the entries of
the sorted global pmid list at positions `p` with
`p % n_worker == worker_id`. -/
def crawl_assigned (pmids : List String) (n_worker worker_id : Nat) :
    List String :=
  (((sortPmids pmids).enum).filter (fun p => p.1 % n_worker == worker_id)).map
    (fun p => p.2)

theorem chunksGo_flatten {α : Type} (n : Nat) (hn : 0 < n) :
    ∀ (fuel : Nat) (l : List α), l.length ≤ fuel →
      (chunksGo n fuel l).flatten = l := by
  intro fuel
  induction fuel with
  | zero =>
    intro l hl
    have hnil : l = [] := List.length_eq_zero.mp (Nat.le_zero.mp hl)
    subst hnil
    rfl
  | succ fuel ih =>
    intro l hl
    cases l with
    | nil => rfl
    | cons x xs =>
      have hlen : ((x :: xs).drop n).length ≤ fuel := by
        rw [List.length_drop]
        simp only [List.length_cons] at hl ⊢
        omega
      show (List.take n (x :: xs) ::
          chunksGo n fuel (List.drop n (x :: xs))).flatten = x :: xs
      rw [List.flatten_cons, ih _ hlen, List.take_append_drop]

theorem flatMap_singleton_map {α β : Type} (l : List α) (f : α → β) :
    l.flatMap (fun x => [f x]) = l.map f := by
  induction l with
  | nil => rfl
  | cons x xs ih => simp [ih]

theorem chunks_flatten {α : Type} (l : List α) (n : Nat) (hn : 0 < n) :
    (chunks l n).flatten = l := by
  unfold chunks
  rw [if_neg (Nat.pos_iff_ne_zero.mp hn)]
  exact chunksGo_flatten n hn l.length l le_rfl

/-- C8: the batch scheduler splits the input into consecutive batches of at
most `batch_size` (one batch if the size is falsy), invokes the scoring
function per batch, and concatenates the results in original order, so for a
row-wise scoring function output row `i` corresponds to input sentence `i`;
equivalently, concatenating `chunks sequence size` restores the original
sequence. -/
theorem c8_batch_order_preserved (α β : Type) :
    (∀ (f : List α → List β) (g : α → β) (batch_size : Nat) (xs : List α),
        (∀ l, f l = l.map g) →
        forward_batched f batch_size xs = xs.map g) ∧
    (∀ (xs : List α) (n : Nat), 0 < n → (chunks xs n).flatten = xs) := by
  constructor
  · intro f g bs xs hf
    unfold forward_batched
    by_cases hbs : bs = 0
    · rw [if_pos hbs]
      exact hf xs
    · rw [if_neg hbs]
      have h1 : (chunks xs bs).map f = (chunks xs bs).map (fun l => l.map g) :=
        List.map_congr_left (fun a _ => hf a)
      rw [h1, ← List.map_flatten, chunks_flatten xs bs (Nat.pos_of_ne_zero hbs)]
  · intro xs n hn
    exact chunks_flatten xs n hn

/-- Witness for C8: a concrete row-wise scoring function, batch size 2 and a
three-element input. -/
theorem c8_batch_order_preserved_witness :
    forward_batched (fun l : List Nat => l.map (fun x => x + 1)) 2 [1, 2, 3] =
      [1, 2, 3].map (fun x => x + 1) ∧
    (chunks ([1, 2, 3] : List Nat) 2).flatten = [1, 2, 3] :=
  ⟨(c8_batch_order_preserved Nat Nat).1 _ (fun x => x + 1) 2 [1, 2, 3]
      (fun _ => rfl),
   (c8_batch_order_preserved Nat Nat).2 [1, 2, 3] 2 (by decide)⟩

/-- C6: pair generation produces the cartesian product of `p1s × p2s` in list
order and, unless `skip_reverse`, each forward pair is immediately followed
by its reverse pair (interleaved, not appended in a separate pass); in
particular `["A"] × ["B"]` yields exactly `[(A,B),(B,A)]` without
`skip_reverse` and exactly `[(A,B)]` with it. -/
theorem c6_pair_generation :
    (∀ p1s p2s : List String,
        pairs_to_query p1s p2s true =
          p1s.flatMap (fun a => p2s.map (fun b => (a, b))) ∧
        pairs_to_query p1s p2s false =
          (p1s.flatMap (fun a => p2s.map (fun b => (a, b)))).flatMap
            (fun ab => [(ab.1, ab.2), (ab.2, ab.1)])) ∧
    pairs_to_query ["A"] ["B"] false = [("A", "B"), ("B", "A")] ∧
    pairs_to_query ["A"] ["B"] true = [("A", "B")] := by
  refine ⟨fun p1s p2s => ⟨?_, ?_⟩, by decide, by decide⟩
  · simp [pairs_to_query, flatMap_singleton_map]
  · simp only [pairs_to_query, List.flatMap_assoc, List.flatMap_map]
    simp

theorem enumFrom_filter_mod_map {α : Type} (d : α) (N w : Nat) :
    ∀ (l : List α) (k : Nat),
      ((List.enumFrom k l).filter (fun p => p.1 % N == w)).map (fun p => p.2) =
        ((List.range' k l.length).filter (fun p => p % N == w)).map
          (fun p => l.getD (p - k) d) := by
  intro l
  induction l with
  | nil => intro k; rfl
  | cons x xs ih =>
    intro k
    rw [List.enumFrom_cons, List.length_cons, List.range'_succ]
    rw [List.filter_cons, List.filter_cons]
    have htail :
        ((List.range' (k + 1) xs.length).filter (fun p => p % N == w)).map
            (fun p => (x :: xs).getD (p - k) d) =
          ((List.range' (k + 1) xs.length).filter (fun p => p % N == w)).map
            (fun p => xs.getD (p - (k + 1)) d) := by
      apply List.map_congr_left
      intro p hp
      have hp' : k + 1 ≤ p :=
        (List.mem_range'_1.mp (List.mem_of_mem_filter hp)).1
      have hstep : p - k = (p - (k + 1)) + 1 := by omega
      rw [hstep, List.getD_cons_succ]
    by_cases hk : (k % N == w) = true
    · rw [if_pos hk, if_pos hk, List.map_cons, List.map_cons, ih (k + 1),
        htail]
      simp
    · rw [if_neg hk, if_neg hk, ih (k + 1), htail]

/-- C4: worker `w` of `N` processes exactly the pmids whose ordinal position
`p` in the deterministically sorted global pmid list satisfies
`p % N == w`; and for every position and every positive worker count there
is exactly one worker id in `[0, N)` it is assigned to. -/
theorem c4_crawl_partitioning :
    (∀ (pmids : List String) (n_worker worker_id : Nat),
        crawl_assigned pmids n_worker worker_id =
          ((List.range (sortPmids pmids).length).filter
              (fun p => p % n_worker == worker_id)).map
            (fun p => (sortPmids pmids).getD p noPmid)) ∧
    (∀ (p N : Nat), 0 < N → ∃! w, w < N ∧ p % N = w) := by
  constructor
  · intro pmids N w
    unfold crawl_assigned List.enum
    rw [enumFrom_filter_mod_map noPmid N w (sortPmids pmids) 0,
      List.range_eq_range']
    exact List.map_congr_left (fun p _ => by rw [Nat.sub_zero])
  · intro p N hN
    refine ⟨p % N, ⟨Nat.mod_lt p hN, rfl⟩, ?_⟩
    rintro w ⟨_, rfl⟩
    rfl

/-- Witness for C4: the full equation at a concrete pmid list, and the unique
worker id of position 5 under 2 workers. -/
theorem c4_crawl_partitioning_witness :
    (crawl_assigned ["b", "a", "c"] 2 0 =
      ((List.range (sortPmids ["b", "a", "c"]).length).filter
          (fun p => p % 2 == 0)).map
        (fun p => (sortPmids ["b", "a", "c"]).getD p noPmid)) ∧
    0 < 2 ∧ (∃! w, w < 2 ∧ 5 % 2 = w) :=
  ⟨c4_crawl_partitioning.1 ["b", "a", "c"] 2 0, by decide,
   c4_crawl_partitioning.2 5 2 (by decide)⟩

/-- C7: when the pipeline runs without a local PubTator copy and the generated
pair count exceeds 100, `predict` fails with the oversized-query error and
exit code 1, and the outcome does not depend on the retrieval or scoring
oracles: no retrieval or scoring work is consulted. -/
theorem c7_safety_cap (p1s p2s : List String) (skip_reverse : Bool)
    (pairData : String × String → List String × List (List Sentence))
    (score : List Sentence → List (List ℚ)) (batchSize : Nat) (cutoff : ℚ)
    (dbFlushed : Bool)
    (hbig : 100 < (pairs_to_query p1s p2s skip_reverse).length) :
    predictRun p1s p2s skip_reverse false pairData score batchSize cutoff
      dbFlushed =
      .error (.oversizedRemoteQuery
          (pairs_to_query p1s p2s skip_reverse).length, 1) ∧
    (∀ (pairData2 : String × String → List String × List (List Sentence))
        (score2 : List Sentence → List (List ℚ)) (dbFlushed2 : Bool),
      predictRun p1s p2s skip_reverse false pairData score batchSize cutoff
        dbFlushed =
        predictRun p1s p2s skip_reverse false pairData2 score2 batchSize
          cutoff dbFlushed2) ∧
    (1 : Nat) ≠ 0 := by
  have herr :
      ∀ (pd : String × String → List String × List (List Sentence))
        (sc : List Sentence → List (List ℚ)) (fl : Bool),
        predictRun p1s p2s skip_reverse false pd sc batchSize cutoff fl =
          .error (.oversizedRemoteQuery
              (pairs_to_query p1s p2s skip_reverse).length, 1) := by
    intro pd sc fl
    unfold predictRun
    rw [if_pos ⟨hbig, rfl⟩]
  exact ⟨herr pairData score dbFlushed,
    fun pd2 sc2 fl2 =>
      (herr pairData score dbFlushed).trans (herr pd2 sc2 fl2).symm,
    Nat.one_ne_zero⟩

/-- Witness for C7: 51 first proteins against one second protein with reverse
pairs generate 102 pairs, which exceeds the cap. -/
theorem c7_safety_cap_witness :
    100 < (pairs_to_query (List.replicate 51 "a") ["b"] false).length ∧
    predictRun (List.replicate 51 "a") ["b"] false false
        (fun _ => ([], [])) (fun _ => []) 50 1 false =
      .error (.oversizedRemoteQuery
          (pairs_to_query (List.replicate 51 "a") ["b"] false).length, 1) :=
  ⟨by decide,
   (c7_safety_cap (List.replicate 51 "a") ["b"] false (fun _ => ([], []))
      (fun _ => []) 50 1 false (by decide)).1⟩

theorem processPair_ne_some_nil (dbResults : List String)
    (batches : List (List Sentence)) (score : List Sentence → List (List ℚ))
    (batchSize : Nat) (cutoff : ℚ) (dbFlushed : Bool) :
    processPair dbResults batches score batchSize cutoff dbFlushed ≠
      some [] := by
  intro h
  unfold processPair at h
  dsimp only at h
  split at h
  · split at h
    · exact Option.noConfusion h
    · rename_i hg
      have h2 := Option.some.inj h
      rw [h2] at hg
      simp at hg
  · split at h
    · split at h
      · exact Option.noConfusion h
      · rename_i hg
        have h2 := Option.some.inj h
        rw [h2] at hg
        simp at hg
    · split at h
      · exact Option.noConfusion h
      · rename_i hg
        exact hg (Option.some.inj h)

/-- C3: amended form — for a pair with no kept sentences or with every score
cell below the cutoff, and for which no database bytes had reached the disk
when the in-block emptiness check ran (guaranteed when no database statement
was written, and in CPython whenever the buffered database output is smaller
than the stream buffer), no output artifact remains; and a zero-record
output file is always deleted, never left empty. -/
theorem c3_empty_artifact_deleted (dbResults : List String)
    (batches : List (List Sentence)) (score : List Sentence → List (List ℚ))
    (batchSize : Nat) (cutoff : ℚ) (dbFlushed : Bool) :
    ((allSentences batches = [] ∨
        (probRows batches score batchSize).flatten.all
          (fun x => x < cutoff) = true) →
      dbFlushed = false →
      processPair dbResults batches score batchSize cutoff dbFlushed =
        none) ∧
    processPair dbResults batches score batchSize cutoff dbFlushed ≠
      some [] := by
  refine ⟨?_, processPair_ne_some_nil dbResults batches score batchSize
    cutoff dbFlushed⟩
  intro hbelow hdb
  subst hdb
  unfold processPair
  dsimp only
  rcases hbelow with h | h
  · rw [if_pos h]
    simp
  · by_cases h1 : allSentences batches = []
    · rw [if_pos h1]
      simp
    · rw [if_neg h1, if_pos h]
      simp

/-- Counterexample for C3 as stated: a single database statement line of
9000 bytes — at least as large as the stream buffer, so CPython writes it
through to the disk before the emptiness check runs — together with no
sentences: the check sees a nonzero size, the file is kept, and the artifact
holding the database line remains, although the claim demands that no
artifact exists afterward. -/
theorem c3_counterexample :
    ¬ (∀ (dbResults : List String) (batches : List (List Sentence))
          (score : List Sentence → List (List ℚ)) (batchSize : Nat)
          (cutoff : ℚ) (dbFlushed : Bool),
        (allSentences batches = [] ∨
          (probRows batches score batchSize).flatten.all
            (fun x => x < cutoff) = true) →
        processPair dbResults batches score batchSize cutoff dbFlushed =
          none) := by
  intro h
  have hc := h [String.mk (List.replicate 9000 'a')] [] (fun _ => []) 50 1
    true (Or.inl rfl)
  have hs : (processPair [String.mk (List.replicate 9000 'a')] []
      (fun _ => []) 50 1 true).isSome = true := rfl
  rw [hc] at hs
  cases hs

/-- Witness for C3: one small database line still sitting in the stream
buffer when the check runs, and no sentences: the file is removed and no
artifact remains. -/
theorem c3_empty_artifact_deleted_witness :
    allSentences ([] : List (List Sentence)) = [] ∧
    processPair [("D")] [] (fun _ => [[(0 : ℚ)]]) 50 1 false = none :=
  ⟨rfl,
   (c3_empty_artifact_deleted [("D")] [] (fun _ => [[(0 : ℚ)]]) 50 1
      false).1 (Or.inl rfl) rfl⟩

theorem count_enumFrom_pair (j : Nat) (v : ℚ) :
    ∀ (row : List ℚ) (k : Nat),
      (List.enumFrom k row).count (j, v) =
        if k ≤ j ∧ row[j - k]? = some v then 1 else 0 := by
  intro row
  induction row with
  | nil => intro k; simp
  | cons x xs ih =>
    intro k
    rw [List.enumFrom_cons, List.count_cons, ih (k + 1)]
    by_cases hkj : k = j
    · subst hkj
      have h1 : ¬ (k + 1 ≤ k ∧ xs[k - (k + 1)]? = some v) := by
        rintro ⟨h, _⟩
        omega
      rw [if_neg h1, Nat.sub_self, List.getElem?_cons_zero, Nat.zero_add]
      by_cases hx : x = v
      · simp [hx]
      · simp [hx, Prod.ext_iff]
    · have hhead : ¬ ((k, x) == (j, v)) = true := by
        simp only [beq_iff_eq, Prod.mk.injEq, not_and]
        exact fun h => absurd h hkj
      rw [if_neg hhead, Nat.add_zero]
      by_cases hlt : k < j
      · have harith : j - k = (j - (k + 1)) + 1 := by omega
        rw [harith, List.getElem?_cons_succ]
        have hcond : (k + 1 ≤ j ∧ xs[j - (k + 1)]? = some v) ↔
            (k ≤ j ∧ xs[j - (k + 1)]? = some v) := by
          constructor <;> rintro ⟨ha, hb⟩ <;> exact ⟨by omega, hb⟩
        exact if_congr hcond rfl rfl
      · have h1 : ¬ (k + 1 ≤ j ∧ xs[j - (k + 1)]? = some v) := by
          rintro ⟨h, _⟩
          omega
        have h2 : ¬ (k ≤ j ∧ (x :: xs)[j - k]? = some v) := by
          rintro ⟨h, _⟩
          omega
        rw [if_neg h1, if_neg h2]

theorem count_matchRow (v : ℚ) (i j i' : Nat) (row : List ℚ) :
    (((List.enumFrom 0 row).filter (fun jv => jv.2 = v)).map
        (fun jv => (i', jv.1))).count (i, j) =
      if i' = i then List.count (j, v) (List.enumFrom 0 row) else 0 := by
  by_cases hi : i' = i
  · subst hi
    rw [if_pos rfl, List.count_eq_countP, List.count_eq_countP,
      List.countP_map, List.countP_filter]
    apply List.countP_congr
    intro jv _
    simp [Prod.ext_iff, Function.comp, and_comm]
  · rw [if_neg hi]
    refine List.count_eq_zero.mpr (fun hmem => ?_)
    rw [List.mem_map] at hmem
    obtain ⟨jv, _, hjv⟩ := hmem
    exact hi (congrArg Prod.fst hjv)

theorem count_matchCells_enumFrom (v : ℚ) (i j : Nat) :
    ∀ (m : List (List ℚ)) (k : Nat),
      ((List.enumFrom k m).flatMap (fun ir =>
          ((List.enumFrom 0 ir.2).filter (fun jv => jv.2 = v)).map
            (fun jv => (ir.1, jv.1)))).count (i, j) =
        if k ≤ i ∧ m[i - k]?.bind (fun row => row[j]?) = some v then 1
        else 0 := by
  intro m
  induction m with
  | nil => intro k; simp
  | cons row rest ih =>
    intro k
    simp only [List.enumFrom_cons, List.flatMap_cons, List.count_append]
    rw [ih (k + 1), count_matchRow]
    have hrow : List.count (j, v) (List.enumFrom 0 row) =
        if row[j]? = some v then 1 else 0 := by
      rw [count_enumFrom_pair j v row 0]
      simp
    by_cases hki : k = i
    · subst hki
      have h1 : ¬ (k + 1 ≤ k ∧ rest[k - (k + 1)]?.bind
          (fun row => row[j]?) = some v) := by
        rintro ⟨h, _⟩
        omega
      rw [if_pos rfl, if_neg h1, hrow, Nat.add_zero, Nat.sub_self,
        List.getElem?_cons_zero]
      simp
    · rw [if_neg hki, Nat.zero_add]
      by_cases hlt : k < i
      · have harith : i - k = (i - (k + 1)) + 1 := by omega
        rw [harith, List.getElem?_cons_succ]
        have hcond : (k + 1 ≤ i ∧ rest[i - (k + 1)]?.bind
              (fun row => row[j]?) = some v) ↔
            (k ≤ i ∧ rest[i - (k + 1)]?.bind
              (fun row => row[j]?) = some v) := by
          constructor <;> rintro ⟨ha, hb⟩ <;> exact ⟨by omega, hb⟩
        exact if_congr hcond rfl rfl
      · have h1 : ¬ (k + 1 ≤ i ∧ rest[i - (k + 1)]?.bind
            (fun row => row[j]?) = some v) := by
          rintro ⟨h, _⟩
          omega
        have h2 : ¬ (k ≤ i ∧ (row :: rest)[i - k]?.bind
            (fun row => row[j]?) = some v) := by
          rintro ⟨h, _⟩
          omega
        rw [if_neg h1, if_neg h2]

theorem count_matchCells (m : List (List ℚ)) (v : ℚ) (i j : Nat) :
    (matchCells m v).count (i, j) =
      if valueAt m i j = some v then 1 else 0 := by
  unfold matchCells valueAt List.enum
  rw [count_matchCells_enumFrom v i j m 0]
  simp

theorem count_rankerWalk (m : List (List ℚ)) (c v : ℚ) (i j : Nat)
    (hval : valueAt m i j = some v) (hc : c ≤ v) :
    ∀ l : List ℚ,
      (l.flatMap (fun u =>
          if u < c then []
          else (matchCells m u).map (fun ij => (u, ij.1, ij.2)))).count
          (v, i, j) = l.count v := by
  intro l
  induction l with
  | nil => rfl
  | cons x xs ih =>
    simp only [List.flatMap_cons, List.count_append]
    rw [ih, List.count_cons, Nat.add_comm]
    congr 1
    by_cases hx : x = v
    · subst hx
      rw [if_neg (not_lt.mpr hc), if_pos (beq_self_eq_true x),
        List.count_eq_countP, List.countP_map]
      have hcount : (matchCells m x).countP
            ((fun a => a == (x, i, j)) ∘ (fun ij => (x, ij.1, ij.2))) =
          (matchCells m x).countP (fun ij => ij == (i, j)) := by
        apply List.countP_congr
        intro ij _
        simp [Function.comp, Prod.ext_iff]
      rw [hcount, ← List.count_eq_countP, count_matchCells, if_pos hval]
    · have hxne : ¬ ((x == v) = true) := by
        simp only [beq_iff_eq]
        exact hx
      rw [if_neg hxne]
      by_cases hxc : x < c
      · rw [if_pos hxc]
        rfl
      · rw [if_neg hxc]
        refine List.count_eq_zero.mpr (fun hmem => ?_)
        rw [List.mem_map] at hmem
        obtain ⟨ij, _, hij⟩ := hmem
        exact hx (congrArg (fun t => t.1) hij)

/-- C1: the ranker walks the sorted score values in descending order and
emits, for every walked value not below the cutoff, one cell emission per
cell whose score equals that value, without removing already-emitted cells;
hence a cell whose score `v` clears the cutoff is emitted exactly as many
times as `v` occurs in the flattened score matrix (two distinct cells that
share a score are both emitted, and re-emitted at each recurrence of that
score in the walk). -/
theorem c1_tie_reemission (m : List (List ℚ)) (cutoff v : ℚ) (i j : Nat)
    (hval : valueAt m i j = some v) (hc : cutoff ≤ v) :
    (rankerCells m cutoff).count (v, i, j) = m.flatten.count v := by
  unfold rankerCells sortDesc
  rw [count_rankerWalk m cutoff v i j hval hc]
  exact (List.perm_insertionSort (fun a b => b ≤ a) m.flatten).count_eq v

/-- Witness for C1: a one-row matrix with a tied score 2 at both cells and
cutoff 1; the cell (0,0) is emitted twice, the number of occurrences of 2 in
the flattened matrix. -/
theorem c1_tie_reemission_witness :
    valueAt [[(2 : ℚ), 2]] 0 0 = some 2 ∧ (1 : ℚ) ≤ 2 ∧
    (rankerCells [[(2 : ℚ), 2]] 1).count (2, 0, 0) =
      ([[(2 : ℚ), 2]] : List (List ℚ)).flatten.count 2 :=
  ⟨by decide, by decide, c1_tie_reemission [[(2 : ℚ), 2]] 1 2 0 0
    (by decide) (by decide)⟩

theorem rankerCells_score_ge (m : List (List ℚ)) (c : ℚ)
    (vij : ℚ × Nat × Nat) (h : vij ∈ rankerCells m c) : c ≤ vij.1 := by
  unfold rankerCells at h
  rw [List.mem_flatMap] at h
  obtain ⟨u, _, hmem⟩ := h
  by_cases huc : u < c
  · rw [if_pos huc] at hmem
    cases hmem
  · rw [if_neg huc] at hmem
    rw [List.mem_map] at hmem
    obtain ⟨ij, _, rfl⟩ := hmem
    exact not_lt.mp huc

theorem rankerRecords_score_ge (sents : List Sentence) (m : List (List ℚ))
    (c : ℚ) (r : ExtractionRecord) (h : r ∈ rankerRecords sents m c) :
    c ≤ r.score := by
  unfold rankerRecords at h
  rw [List.mem_filterMap] at h
  obtain ⟨vij, hvij, hr⟩ := h
  obtain ⟨s, _, rfl⟩ := Option.map_eq_some'.mp hr
  exact rankerCells_score_ge m c vij hvij

/-- C2: every extraction record emitted into a pair's output file has score
greater than or equal to the configured cutoff; walked values below the
cutoff produce no emission. -/
theorem c2_emitted_score_ge_cutoff (dbResults : List String)
    (batches : List (List Sentence)) (score : List Sentence → List (List ℚ))
    (batchSize : Nat) (cutoff : ℚ) (dbFlushed : Bool)
    (es : List (String ⊕ ExtractionRecord)) (r : ExtractionRecord)
    (hrun : processPair dbResults batches score batchSize cutoff dbFlushed =
      some es)
    (hmem : Sum.inr r ∈ es) : cutoff ≤ r.score := by
  have hdb : Sum.inr r ∉
      (dbWritten dbResults).map (Sum.inl (β := ExtractionRecord)) := by
    intro hmem2
    rw [List.mem_map] at hmem2
    obtain ⟨x, _, hx⟩ := hmem2
    cases hx
  unfold processPair at hrun
  dsimp only at hrun
  split at hrun
  · split at hrun
    · cases hrun
    · rw [Option.some.injEq] at hrun
      subst hrun
      exact absurd hmem hdb
  · split at hrun
    · split at hrun
      · cases hrun
      · rw [Option.some.injEq] at hrun
        subst hrun
        exact absurd hmem hdb
    · split at hrun
      · cases hrun
      · rw [Option.some.injEq] at hrun
        subst hrun
        rcases List.mem_append.mp hmem with hl | hr2
        · exact absurd hl hdb
        · rw [List.mem_map] at hr2
          obtain ⟨rec, hrec, hinj⟩ := hr2
          cases hinj
          exact rankerRecords_score_ge _ _ _ _ hrec

/-- Witness for C2: one sentence scored 2 against cutoff 1 produces one
record, whose score clears the cutoff. -/
theorem c2_emitted_score_ge_cutoff_witness :
    processPair [] [[⟨"t", "tb", "p"⟩]] (fun _ => [[2]]) 50 1 false =
      some [Sum.inr ⟨0, 2, "p", "t"⟩] ∧
    Sum.inr (⟨0, 2, "p", "t"⟩ : ExtractionRecord) ∈
      ([Sum.inr (⟨0, 2, "p", "t"⟩ : ExtractionRecord)] :
        List (String ⊕ ExtractionRecord)) ∧
    (1 : ℚ) ≤ (⟨0, 2, "p", "t"⟩ : ExtractionRecord).score :=
  ⟨by decide, List.mem_singleton.mpr rfl,
   c2_emitted_score_ge_cutoff [] [[⟨"t", "tb", "p"⟩]] (fun _ => [[2]]) 50 1
     false [Sum.inr ⟨0, 2, "p", "t"⟩] ⟨0, 2, "p", "t"⟩ (by decide)
     (List.mem_singleton.mpr rfl)⟩

theorem dedupAux_text_not_mem :
    ∀ (batches : List (List Sentence)) (processed : List String) (k : Nat)
      (s : Sentence), s ∈ (dedupAux processed batches).getD k [] →
      s.text ∉ processed := by
  intro batches
  induction batches with
  | nil =>
    intro processed k s hs
    simp [dedupAux] at hs
  | cons b bs ih =>
    intro processed k s hs
    cases k with
    | zero =>
      simp only [dedupAux, List.getD_cons_zero] at hs
      unfold keptOfBatch at hs
      rw [List.mem_filter] at hs
      simpa using hs.2
    | succ k =>
      simp only [dedupAux, List.getD_cons_succ] at hs
      have hnotin := ih _ k s hs
      exact fun hmem => hnotin (List.mem_append.mpr (Or.inl hmem))

theorem dedupAux_texts_distinct :
    ∀ (batches : List (List Sentence)) (processed : List String) (i j : Nat)
      (si sj : Sentence), i < j →
      si ∈ (dedupAux processed batches).getD i [] →
      sj ∈ (dedupAux processed batches).getD j [] → si.text ≠ sj.text := by
  intro batches
  induction batches with
  | nil =>
    intro processed i j si sj hij hi hj
    simp [dedupAux] at hi
  | cons b bs ih =>
    intro processed i j si sj hij hi hj
    cases j with
    | zero => omega
    | succ j =>
      simp only [dedupAux, List.getD_cons_succ] at hj
      cases i with
      | zero =>
        simp only [dedupAux, List.getD_cons_zero] at hi
        have hjn := dedupAux_text_not_mem bs _ j sj hj
        intro heq
        apply hjn
        rw [← heq]
        exact List.mem_append.mpr (Or.inr (List.mem_map.mpr ⟨si, hi, rfl⟩))
      | succ i =>
        simp only [dedupAux, List.getD_cons_succ] at hi
        exact ih _ i j si sj (by omega) hi hj

/-- C9 amended: sentences kept for scoring in different evidence batches of
the same pair never share their raw text — a duplicate text arriving in a
later batch is filtered out; duplicates arriving inside one and the same
batch are not removed. -/
theorem c9_cross_batch_dedup (batches : List (List Sentence)) (i j : Nat)
    (si sj : Sentence) (hij : i < j)
    (hi : si ∈ (keptBatches batches).getD i [])
    (hj : sj ∈ (keptBatches batches).getD j []) : si.text ≠ sj.text :=
  dedupAux_texts_distinct batches [] i j si sj hij hi hj

/-- Counterexample for C9 as stated: two sentences with identical raw text
arriving in the same evidence batch are both kept and both scored, so the
kept sentences of a pair are not always pairwise distinct in raw text. -/
theorem c9_counterexample :
    ¬ ∀ (batches : List (List Sentence)),
        (allSentences batches).Pairwise (fun a b => a.text ≠ b.text) := by
  intro h
  have hp := h [[⟨"x", "x", "1"⟩, ⟨"x", "x", "2"⟩]]
  have hls : allSentences [[⟨"x", "x", "1"⟩, ⟨"x", "x", "2"⟩]] =
      [⟨"x", "x", "1"⟩, ⟨"x", "x", "2"⟩] := by decide
  rw [hls] at hp
  obtain ⟨hrel, -⟩ := List.pairwise_cons.mp hp
  exact hrel _ (List.mem_singleton.mpr rfl) rfl

/-- Witness for C9: a duplicate-free two-batch stream, whose two kept
sentences have distinct texts. -/
theorem c9_cross_batch_dedup_witness :
    0 < 1 ∧
    (⟨"x", "x", "1"⟩ : Sentence) ∈
      (keptBatches [[⟨"x", "x", "1"⟩], [⟨"y", "y", "2"⟩]]).getD 0 [] ∧
    (⟨"y", "y", "2"⟩ : Sentence) ∈
      (keptBatches [[⟨"x", "x", "1"⟩], [⟨"y", "y", "2"⟩]]).getD 1 [] ∧
    (⟨"x", "x", "1"⟩ : Sentence).text ≠ (⟨"y", "y", "2"⟩ : Sentence).text :=
  ⟨Nat.one_pos, List.Mem.head _, List.Mem.head _,
   c9_cross_batch_dedup [[⟨"x", "x", "1"⟩], [⟨"y", "y", "2"⟩]] 0 1
     ⟨"x", "x", "1"⟩ ⟨"y", "y", "2"⟩ Nat.one_pos (List.Mem.head _)
     (List.Mem.head _)⟩

theorem getD_map_of_lt {α β : Type} (f : α → β) (l : List α) (k : Nat)
    (d : β) (hk : k < l.length) :
    (l.map f).getD k d = f (l.get ⟨k, hk⟩) := by
  rw [List.getD_eq_getElem?_getD, List.getElem?_map, List.getElem?_eq_getElem hk]
  rfl

theorem crawlRawLines_eq_events (works : List PmidWork) :
    crawlRawLines works =
      (writeEvents works).map (fun e => rawLine e.1 e.2) := by
  unfold crawlRawLines writeEvents
  rw [List.map_flatMap]
  apply congrArg
  funext w
  by_cases hd : w.hasDoc
  · simp only [hd, if_true, List.map_flatMap, List.map_map]
    rfl
  · simp [hd]

theorem crawlBlindedLines_eq_events (works : List PmidWork) :
    crawlBlindedLines works =
      (writeEvents works).map (fun e => blindedLine e.1 e.2) := by
  unfold crawlBlindedLines writeEvents
  rw [List.map_flatMap]
  apply congrArg
  funext w
  by_cases hd : w.hasDoc
  · simp only [hd, if_true, List.map_flatMap, List.map_map]
    rfl
  · simp [hd]

/-- C10: after the crawl of a worker completes, the raw-text shard and the
blinded-text shard hold the same number of lines, and every line index holds
in both files the same head type, head id, tail type, tail id, joined
relation set and pmid, while the sentence field holds the raw text in one
file and the blinded text of the same sentence in the other. -/
theorem c10_shard_alignment (works : List PmidWork)
    (n_worker worker_id : Nat) :
    (crawlRawLines (crawl_work works n_worker worker_id)).length =
      (crawlBlindedLines (crawl_work works n_worker worker_id)).length ∧
    (∀ k, k < (crawlRawLines (crawl_work works n_worker worker_id)).length →
      ∃ (pw : PairWork) (s : TSent),
        (crawlRawLines (crawl_work works n_worker worker_id)).getD k [] =
          [pw.head.type, pw.head.cuid, pw.tail.type, pw.tail.cuid,
           String.intercalate relSep pw.rels, s.text, s.pmid] ∧
        (crawlBlindedLines (crawl_work works n_worker worker_id)).getD k [] =
          [pw.head.type, pw.head.cuid, pw.tail.type, pw.tail.cuid,
           String.intercalate relSep pw.rels, s.text_blinded, s.pmid]) := by
  constructor
  · rw [crawlRawLines_eq_events, crawlBlindedLines_eq_events,
      List.length_map, List.length_map]
  · intro k hk
    have hk' : k <
        (writeEvents (crawl_work works n_worker worker_id)).length := by
      rw [crawlRawLines_eq_events, List.length_map] at hk
      exact hk
    refine
      ⟨((writeEvents (crawl_work works n_worker worker_id)).get ⟨k, hk'⟩).1,
       ((writeEvents (crawl_work works n_worker worker_id)).get ⟨k, hk'⟩).2,
       ?_, ?_⟩
    · rw [crawlRawLines_eq_events,
        getD_map_of_lt (fun e => rawLine e.1 e.2) _ k [] hk']
      rfl
    · rw [crawlBlindedLines_eq_events,
        getD_map_of_lt (fun e => blindedLine e.1 e.2) _ k [] hk']
      rfl

/-- Witness for C10: a one-pmid, one-pair, one-sentence crawl under a single
worker. -/
theorem c10_shard_alignment_witness :
    (crawlRawLines (crawl_work [⟨true, [⟨⟨"Gene", "g1"⟩, ⟨"Gene", "g2"⟩,
        ["a"], [⟨"s", "sb", "7"⟩]⟩]⟩] 1 0)).length =
      (crawlBlindedLines (crawl_work [⟨true, [⟨⟨"Gene", "g1"⟩, ⟨"Gene", "g2"⟩,
        ["a"], [⟨"s", "sb", "7"⟩]⟩]⟩] 1 0)).length ∧
    0 < (crawlRawLines (crawl_work [⟨true, [⟨⟨"Gene", "g1"⟩, ⟨"Gene", "g2"⟩,
        ["a"], [⟨"s", "sb", "7"⟩]⟩]⟩] 1 0)).length ∧
    (∃ (pw : PairWork) (s : TSent),
      (crawlRawLines (crawl_work [⟨true, [⟨⟨"Gene", "g1"⟩, ⟨"Gene", "g2"⟩,
          ["a"], [⟨"s", "sb", "7"⟩]⟩]⟩] 1 0)).getD 0 [] =
        [pw.head.type, pw.head.cuid, pw.tail.type, pw.tail.cuid,
         String.intercalate relSep pw.rels, s.text, s.pmid] ∧
      (crawlBlindedLines (crawl_work [⟨true, [⟨⟨"Gene", "g1"⟩, ⟨"Gene", "g2"⟩,
          ["a"], [⟨"s", "sb", "7"⟩]⟩]⟩] 1 0)).getD 0 [] =
        [pw.head.type, pw.head.cuid, pw.tail.type, pw.tail.cuid,
         String.intercalate relSep pw.rels, s.text_blinded, s.pmid]) :=
  ⟨(c10_shard_alignment [⟨true, [⟨⟨"Gene", "g1"⟩, ⟨"Gene", "g2"⟩,
      ["a"], [⟨"s", "sb", "7"⟩]⟩]⟩] 1 0).1,
   by decide,
   (c10_shard_alignment [⟨true, [⟨⟨"Gene", "g1"⟩, ⟨"Gene", "g2"⟩,
      ["a"], [⟨"s", "sb", "7"⟩]⟩]⟩] 1 0).2 0 (by decide)⟩

/-- C5 fails on the code: the shard bytes depend on the iteration order of
the relation set handed to the separator join, and that order is not fixed
by the input triples (Python set iteration varies across processes under
hash randomization); two runs over the same logical relation set `a, b` with
the two possible iteration orders produce different shard bytes, so shard
output is not byte-identical across runs. -/
theorem c5_shard_bytes_depend_on_set_order :
    (["a", "b"] : List String).Perm ["b", "a"] ∧
    crawl_raw_shard [⟨true, [⟨⟨"Gene", "g1"⟩, ⟨"Gene", "g2"⟩, ["a", "b"],
        [⟨"s", "sb", "7"⟩]⟩]⟩] 1 0 ≠
      crawl_raw_shard [⟨true, [⟨⟨"Gene", "g1"⟩, ⟨"Gene", "g2"⟩, ["b", "a"],
        [⟨"s", "sb", "7"⟩]⟩]⟩] 1 0 :=
  ⟨by decide, by decide⟩

end Pedl
